import Mathlib

/-!
Verification development for a single-player blackjack engine.

The embedding follows the Python sources `blackjack/cards.py` and
`blackjack/game.py` directly.  The `Hand` class is imported by the game
engine and exercised by `tests/test_hand.py`, but its module is not among
the available sources; its operations are therefore modelled from the
specification's contract for `Hand` (section 4.2), as marked on each
definition.

Mutating methods are embedded in state-passing style: a Python method that
mutates `self` becomes a Lean function returning the updated value.  The
deck's random shuffle is an injectable parameter (a function on card
lists), matching the spec's injectable random source; payouts, `float` in
Python, are modelled as rationals, since the engine only ever returns the
literals -1.0, 0.0, 1.0 and the configured blackjack multiplier, on which
no arithmetic is performed.
-/

namespace Blackjack

/-- Card ranks, from `RANKS` in `cards.py`: A, 2..10, J, Q, K. -/
inductive Rank
  | ace | two | three | four | five | six | seven | eight | nine | ten
  | jack | queen | king
  deriving DecidableEq, Repr

/-- Card suits, from `SUITS` in `cards.py` (spade, heart, diamond, club). -/
inductive Suit
  | spades | hearts | diamonds | clubs
  deriving DecidableEq, Repr

/-- `Card` dataclass from `cards.py`: a rank and a suit, structural equality. -/
structure Card where
  rank : Rank
  suit : Suit
  deriving DecidableEq, Repr

/-- The `VALUES` mapping from `cards.py`: 2-10 face value, J/Q/K 10, A 11. -/
def VALUES : Rank → Nat
  | .ace => 11
  | .two => 2
  | .three => 3
  | .four => 4
  | .five => 5
  | .six => 6
  | .seven => 7
  | .eight => 8
  | .nine => 9
  | .ten => 10
  | .jack => 10
  | .queen => 10
  | .king => 10

/-- The `RANKS` tuple from `cards.py`, in source order. -/
def RANKS : List Rank :=
  [.ace, .two, .three, .four, .five, .six, .seven, .eight, .nine, .ten,
   .jack, .queen, .king]

/-- The `SUITS` tuple from `cards.py`, in source order. -/
def SUITS : List Suit := [.spades, .hearts, .diamonds, .clubs]

/-- One standard 52-card deck in the order of the comprehension in
`Deck._build_and_shuffle`: for each suit, all ranks. -/
def oneDeck : List Card :=
  SUITS.flatMap (fun s => RANKS.map (fun r => ⟨r, s⟩))

/-- The full `n`-deck card list built by `Deck._build_and_shuffle` before
shuffling: `n` copies of the 52-card deck concatenated. -/
def buildCards : Nat → List Card
  | 0 => []
  | n + 1 => oneDeck ++ buildCards n

/-- `Deck` state from `cards.py`: the clamped deck count and the current
ordered card sequence.  The random generator is not part of the state here;
the shuffle it induces is passed to the operations as a function. -/
structure Deck where
  n_decks : Nat
  cards : List Card
  deriving DecidableEq, Repr

/-- `Deck._build_and_shuffle`: rebuild the full multi-deck list and shuffle
it with the injected shuffle. -/
def Deck.buildAndShuffle (shuffle : List Card → List Card) (d : Deck) : Deck :=
  { d with cards := shuffle (buildCards d.n_decks) }

/-- `Deck.__init__`: clamp the requested deck count with `max(1, n_decks)`,
then build and shuffle.  The Python argument is an `int`, so it is taken
here as an integer that may be non-positive. -/
def Deck.init (shuffle : List Card → List Card) (n_decks : Int) : Deck :=
  Deck.buildAndShuffle shuffle { n_decks := (max 1 n_decks).toNat, cards := [] }

/-- The two replenishment checks at the head of `Deck.draw`: if the
sequence is empty, rebuild and shuffle; then, if its length is under 25%
of `n_decks * 52` (the float threshold `n_decks * 52 * 0.25` is exactly
`13 * n_decks`, compared here without division as
`len * 4 < n_decks * 52`), rebuild and shuffle again. -/
def Deck.replenish (shuffle : List Card → List Card) (d : Deck) : Deck :=
  let d1 := if d.cards.length = 0 then d.buildAndShuffle shuffle else d
  if d1.cards.length * 4 < d1.n_decks * 52
    then d1.buildAndShuffle shuffle else d1

/-- `Deck.draw`: run the replenishment checks, then pop from the end of
the sequence.  The final pop is Python `list.pop()`, which raises on an
empty list; that failure case is modelled as `none`. -/
def Deck.draw (shuffle : List Card → List Card) (d : Deck) :
    Option (Card × Deck) :=
  let d2 := d.replenish shuffle
  match d2.cards.getLast? with
  | none => none
  | some c => some (c, { d2 with cards := d2.cards.dropLast })

/-- Modelled from the spec: the ace-demotion loop of `Hand.total`
(section 4.2) — the `Hand` module itself is not among the sources.  Given a
running total (all aces counted as 11) and the number of aces still counted
as 11, while the total exceeds 21 and an ace is still counted as 11, demote
one ace from 11 to 1.  Returns the final total together with the number of
aces left counted as 11. -/
def adjustAces : Nat → Nat → Nat × Nat
  | t, 0 => (t, 0)
  | t, n + 1 => if 21 < t then adjustAces (t - 10) n else (t, n + 1)

/-- Modelled from the spec: `Hand` is an ordered sequence of cards in deal
order (section 3; the `Hand` module is not among the sources). -/
structure Hand where
  cards : List Card := []
  deriving DecidableEq, Repr

/-- Sum of `VALUES` over a card list — the base total with every ace as 11. -/
def baseSum : List Card → Nat
  | [] => 0
  | c :: cs => VALUES c.rank + baseSum cs

/-- Number of aces in a card list. -/
def acesCount : List Card → Nat
  | [] => 0
  | c :: cs => (if c.rank = .ace then 1 else 0) + acesCount cs

/-- The minimal value of a rank: aces count 1, all others their `VALUES`. -/
def minValue (r : Rank) : Nat := if r = .ace then 1 else VALUES r

/-- The minimal total of a card list: every ace counted as 1. -/
def minSum : List Card → Nat
  | [] => 0
  | c :: cs => minValue c.rank + minSum cs

/-- Modelled from the spec: `Hand.add` appends the card to the ordered
sequence (section 4.2). -/
def Hand.add (h : Hand) (c : Card) : Hand := { cards := h.cards ++ [c] }

/-- Modelled from the spec: `Hand.total` (section 4.2) — sum the base
values with each ace as 11, then demote aces from 11 to 1 while the total
exceeds 21 and an ace is still counted as 11. -/
def Hand.total (h : Hand) : Nat :=
  (adjustAces (baseSum h.cards) (acesCount h.cards)).1

/-- Modelled from the spec: the hand is soft iff, at the final computed
total, at least one ace is still counted as 11 (section 4.2). -/
def Hand.is_soft (h : Hand) : Bool :=
  decide (0 < (adjustAces (baseSum h.cards) (acesCount h.cards)).2)

/-- Modelled from the spec: `is_bust` iff `total > 21` (section 4.2). -/
def Hand.is_bust (h : Hand) : Bool := decide (21 < h.total)

/-- Modelled from the spec: `is_blackjack` iff exactly two cards and
`total == 21` (section 4.2). -/
def Hand.is_blackjack (h : Hand) : Bool :=
  decide (h.cards.length = 2 ∧ h.total = 21)

/-- `Rules` dataclass from `game.py`: soft-17 policy (default S17) and the
blackjack payout multiplier (default 3:2). -/
structure Rules where
  dealer_hits_soft_17 : Bool := false
  blackjack_pays : ℚ := 3 / 2
  deriving DecidableEq, Repr

/-- `BlackjackGame` state from `game.py`: a deck, the rules, and the two
hands.  The deck is injectable at construction (tests pass a rigged deck
with its own `draw`), so the game state is parametric in the deck state
type; the deck's `draw` method is passed to the operations that use it as a
function `σ → Card × σ`. -/
structure BlackjackGame (σ : Type) where
  deck : σ
  rules : Rules := {}
  player : Hand := {}
  dealer : Hand := {}

/-- `BlackjackGame.deal_initial`: reset both hands to empty, then twice
deal one card to the player and one to the dealer, in that order, drawing
from the owned deck. -/
def deal_initial {σ : Type} (draw : σ → Card × σ)
    (g : BlackjackGame σ) : BlackjackGame σ :=
  let r1 := draw g.deck
  let p1 := Hand.add {} r1.1
  let r2 := draw r1.2
  let d1 := Hand.add {} r2.1
  let r3 := draw r2.2
  let p2 := p1.add r3.1
  let r4 := draw r3.2
  let d2 := d1.add r4.1
  { g with player := p2, dealer := d2, deck := r4.2 }

/-- The dealer hit condition tested on each iteration of
`BlackjackGame.dealer_play`: total under 17, or a soft 17 under H17 rules
(in the source, `soft17 = total == 17 and is_soft()` and the guard is
`total < 17 or (soft17 and dealer_hits_soft_17)`). -/
def hitCond (r : Rules) (h : Hand) : Bool :=
  decide (h.total < 17) ||
    (decide (h.total = 17) && h.is_soft && r.dealer_hits_soft_17)

/-- One iteration of the dealer loop body:
`self.dealer.add(self.deck.draw())`. -/
def dealerStep {σ : Type} (draw : σ → Card × σ)
    (g : BlackjackGame σ) : BlackjackGame σ :=
  { g with dealer := g.dealer.add (draw g.deck).1, deck := (draw g.deck).2 }

/-- `BlackjackGame.dealer_play`: draw for the dealer while the hit
condition holds, stop as soon as it fails.  The recursion is well founded
because every drawn card raises the dealer's minimal total by at least 1,
and the hit condition forces that minimal total under 17. -/
def dealer_play {σ : Type} (draw : σ → Card × σ)
    (g : BlackjackGame σ) : BlackjackGame σ :=
  if hc : hitCond g.rules g.dealer then
    dealer_play draw (dealerStep draw g)
  else g
  termination_by 17 - minSum g.dealer.cards
  decreasing_by
    have hadj : ∀ (n t : Nat),
        (adjustAces t n).1 + 10 * (n - (adjustAces t n).2) = t ∧
          (adjustAces t n).2 ≤ n := by
      intro n
      induction n with
      | zero => intro t; simp [adjustAces]
      | succ n ih =>
        intro t
        by_cases h : 21 < t
        · have := ih (t - 10)
          simp only [adjustAces, if_pos h]
          omega
        · simp [adjustAces, if_neg h]
    have hbase : ∀ l : List Card, baseSum l = minSum l + 10 * acesCount l := by
      intro l
      induction l with
      | nil => simp [baseSum, minSum, acesCount]
      | cons c cs ih =>
        by_cases h : c.rank = .ace
        · simp [baseSum, minSum, acesCount, minValue, h, VALUES]; omega
        · simp [baseSum, minSum, acesCount, minValue, h]; omega
    have hlt : minSum g.dealer.cards < 17 := by
      have ht := hadj (acesCount g.dealer.cards) (baseSum g.dealer.cards)
      have hb := hbase g.dealer.cards
      simp only [hitCond, Hand.total, Hand.is_soft, Bool.or_eq_true,
        Bool.and_eq_true, decide_eq_true_eq] at hc
      rcases hc with h17 | ⟨⟨h17, hsoft⟩, _⟩ <;> omega
    have happ : ∀ (l : List Card) (c : Card),
        minSum (l ++ [c]) = minSum l + minValue c.rank := by
      intro l c
      induction l with
      | nil => simp [minSum]
      | cons d ds ih => simp [minSum, ih]; omega
    have hone : 1 ≤ minValue (draw g.deck).1.rank := by
      cases (draw g.deck).1.rank <;> simp [minValue, VALUES]
    have := happ g.dealer.cards (draw g.deck).1
    simp only [dealerStep, Hand.add]
    omega

/-- `BlackjackGame.settle`: outcome and payout from the two hands and the
rules — naturals first, then busts, then the total comparison. -/
def settle {σ : Type} (g : BlackjackGame σ) : String × ℚ :=
  if g.player.is_blackjack && g.dealer.is_blackjack then ("push", 0)
  else if g.player.is_blackjack then
    ("player_blackjack", g.rules.blackjack_pays)
  else if g.dealer.is_blackjack then ("dealer_win", -1)
  else if g.player.is_bust then ("player_bust", -1)
  else if g.dealer.is_bust then ("dealer_bust", 1)
  else if g.dealer.total < g.player.total then ("player_win", 1)
  else if g.player.total < g.dealer.total then ("dealer_win", -1)
  else ("push", 0)

/-- Written from the spec's property, as the comparison point for the hand
total: a value is achievable when it arises from independently valuing each
ace as 1 or 11 and every other card at its face value (J/Q/K as 10).
Choosing which aces count 11 only determines their number, so the
achievable values are exactly `minSum + 10 * k` for `k` between 0 and the
number of aces. -/
def achievableTotal (l : List Card) (v : Nat) : Prop :=
  ∃ k, k ≤ acesCount l ∧ v = minSum l + 10 * k

/-- The demotion loop keeps the invariant: final total plus 10 for each
demoted ace recovers the starting total, and the aces still counted as 11
never exceed the starting count. -/
theorem adjustAces_spec (n t : Nat) :
    (adjustAces t n).1 + 10 * (n - (adjustAces t n).2) = t ∧
      (adjustAces t n).2 ≤ n := by
  induction n generalizing t with
  | zero => simp [adjustAces]
  | succ n ih =>
    by_cases h : 21 < t
    · have := ih (t - 10)
      simp only [adjustAces, if_pos h]
      omega
    · simp [adjustAces, if_neg h]

/-- The base total (aces as 11) is the minimal total plus 10 per ace. -/
theorem baseSum_eq_minSum (l : List Card) :
    baseSum l = minSum l + 10 * acesCount l := by
  induction l with
  | nil => simp [baseSum, minSum, acesCount]
  | cons c cs ih =>
    by_cases h : c.rank = .ace
    · simp [baseSum, minSum, acesCount, minValue, h, VALUES]; omega
    · simp [baseSum, minSum, acesCount, minValue, h]; omega

/-- The computed hand total is the minimal total plus 10 for each ace
still counted as 11. -/
theorem Hand.total_eq (h : Hand) :
    h.total = minSum h.cards +
      10 * (adjustAces (baseSum h.cards) (acesCount h.cards)).2 := by
  have hs := adjustAces_spec (acesCount h.cards) (baseSum h.cards)
  have hb := baseSum_eq_minSum h.cards
  unfold Hand.total
  omega

/-- Every rank is worth at least 1 even at its minimal valuation. -/
theorem one_le_minValue (r : Rank) : 1 ≤ minValue r := by
  cases r <;> simp [minValue, VALUES]

/-- Appending a card adds its minimal value to the minimal total. -/
theorem minSum_append (l : List Card) (c : Card) :
    minSum (l ++ [c]) = minSum l + minValue c.rank := by
  induction l with
  | nil => simp [minSum]
  | cons d ds ih => simp [minSum, ih]; omega

/-- If the hit condition holds, the dealer's minimal total is under 17. -/
theorem hitCond_minSum_lt {r : Rules} {h : Hand} (hc : hitCond r h = true) :
    minSum h.cards < 17 := by
  have ht := h.total_eq
  simp only [hitCond, Hand.is_soft, Bool.or_eq_true, Bool.and_eq_true,
    decide_eq_true_eq] at hc
  rcases hc with h17 | ⟨⟨h17, hsoft⟩, _⟩ <;> omega

/-- If the hit condition fails, the hand totals at least 17. -/
theorem hitCond_false_total {r : Rules} {h : Hand}
    (hc : hitCond r h = false) : 17 ≤ h.total := by
  simp only [hitCond, Bool.or_eq_false_iff, decide_eq_false_iff_not,
    Nat.not_lt] at hc
  exact hc.1

/-- The loop-unfolding equation of `dealer_play`: one iteration draws when
the hit condition holds and stops otherwise. -/
theorem dealer_play_eq {σ : Type} (draw : σ → Card × σ)
    (g : BlackjackGame σ) :
    dealer_play draw g =
      if hitCond g.rules g.dealer then dealer_play draw (dealerStep draw g)
      else g := by
  rw [dealer_play, dite_eq_ite]

/-- After `dealer_play` the hit condition fails and the rules are
untouched; proved by induction on the fuel bound `17 - minSum`. -/
theorem dealer_play_inv {σ : Type} (draw : σ → Card × σ) :
    ∀ (m : Nat) (g : BlackjackGame σ), 17 - minSum g.dealer.cards ≤ m →
      hitCond g.rules (dealer_play draw g).dealer = false ∧
        (dealer_play draw g).rules = g.rules := by
  intro m
  induction m with
  | zero =>
    intro g hm
    have hc : hitCond g.rules g.dealer = false := by
      by_contra hcc
      have := hitCond_minSum_lt (r := g.rules) (h := g.dealer)
        (Bool.of_not_eq_false hcc)
      omega
    rw [dealer_play_eq, if_neg (by simp [hc])]
    exact ⟨hc, rfl⟩
  | succ m ih =>
    intro g hm
    by_cases hc : hitCond g.rules g.dealer = true
    · rw [dealer_play_eq, if_pos hc]
      have hlt := hitCond_minSum_lt hc
      have happ := minSum_append g.dealer.cards (draw g.deck).1
      have hone := one_le_minValue (draw g.deck).1.rank
      have hmeas : 17 - minSum (dealerStep draw g).dealer.cards ≤ m := by
        simp only [dealerStep, Hand.add]
        omega
      have hih := ih (dealerStep draw g) hmeas
      exact ⟨hih.1, hih.2⟩
    · have hc' : hitCond g.rules g.dealer = false := by
        simpa using hc
      rw [dealer_play_eq, if_neg (by simp [hc'])]
      exact ⟨hc', rfl⟩

/-- After `dealer_play` the hit condition fails (instantiated bound). -/
theorem dealer_play_noHit {σ : Type} (draw : σ → Card × σ)
    (g : BlackjackGame σ) :
    hitCond g.rules (dealer_play draw g).dealer = false :=
  (dealer_play_inv draw (17 - minSum g.dealer.cards) g le_rfl).1

/-- Starting from `m + 10 * a` with `a` aces counted as 11, the demotion
loop returns the largest value of the form `m + 10 * k` (for `k ≤ a`) that
does not exceed 21, and returns `m` itself when even `m` exceeds 21. -/
theorem adjust_best (m : Nat) : ∀ a : Nat,
    (m ≤ 21 → (adjustAces (m + 10 * a) a).1 ≤ 21 ∧
      (∃ k, k ≤ a ∧ (adjustAces (m + 10 * a) a).1 = m + 10 * k) ∧
      ∀ k, k ≤ a → m + 10 * k ≤ 21 →
        m + 10 * k ≤ (adjustAces (m + 10 * a) a).1) ∧
    (21 < m → (adjustAces (m + 10 * a) a).1 = m) := by
  intro a
  induction a with
  | zero =>
    constructor
    · intro hm
      refine ⟨by simpa [adjustAces] using hm, ⟨0, by simp [adjustAces]⟩, ?_⟩
      intro k hk _
      simp only [adjustAces]
      omega
    · intro _
      simp [adjustAces]
  | succ a ih =>
    by_cases hgt : 21 < m + 10 * (a + 1)
    · have harg : m + 10 * (a + 1) - 10 = m + 10 * a := by omega
      have hunf : adjustAces (m + 10 * (a + 1)) (a + 1) =
          adjustAces (m + 10 * a) a := by
        simp only [adjustAces, if_pos hgt, harg]
      rw [hunf]
      constructor
      · intro hm
        obtain ⟨h1, ⟨k, hk, hke⟩, h3⟩ := ih.1 hm
        refine ⟨h1, ⟨k, by omega, hke⟩, ?_⟩
        intro k2 hk2 hle
        by_cases hk2a : k2 ≤ a
        · exact h3 k2 hk2a hle
        · omega
      · intro hm
        exact ih.2 hm
    · have hunf : adjustAces (m + 10 * (a + 1)) (a + 1) =
          (m + 10 * (a + 1), a + 1) := by
        simp only [adjustAces, if_neg hgt]
      rw [hunf]
      constructor
      · intro hm
        refine ⟨by omega, ⟨a + 1, le_rfl, rfl⟩, ?_⟩
        intro k hk _
        omega
      · intro hm
        omega

/-- C3: for every hand of cards, `total` is the maximum value not
exceeding 21 achievable by independently valuing each ace as 1 or 11, and
when even the all-aces-as-1 valuation exceeds 21, `total` is that minimal
sum; two aces plus a 9 total 21, and adding another 9 gives 20. -/
theorem hand_total_best_value (l : List Card) :
    (minSum l ≤ 21 →
      Hand.total ⟨l⟩ ≤ 21 ∧ achievableTotal l (Hand.total ⟨l⟩) ∧
        ∀ v, achievableTotal l v → v ≤ 21 → v ≤ Hand.total ⟨l⟩) ∧
    (21 < minSum l → Hand.total ⟨l⟩ = minSum l) ∧
    Hand.total ⟨[⟨Rank.ace, Suit.spades⟩, ⟨Rank.ace, Suit.hearts⟩,
      ⟨Rank.nine, Suit.diamonds⟩]⟩ = 21 ∧
    Hand.total ⟨[⟨Rank.ace, Suit.spades⟩, ⟨Rank.ace, Suit.hearts⟩,
      ⟨Rank.nine, Suit.diamonds⟩, ⟨Rank.nine, Suit.clubs⟩]⟩ = 20 := by
  have hb : Hand.total ⟨l⟩ =
      (adjustAces (minSum l + 10 * acesCount l) (acesCount l)).1 := by
    simp only [Hand.total]
    rw [baseSum_eq_minSum]
  have hmain := adjust_best (minSum l) (acesCount l)
  refine ⟨?_, ?_, by decide, by decide⟩
  · intro hm
    obtain ⟨h1, ⟨k, hk, hke⟩, h3⟩ := hmain.1 hm
    rw [hb]
    refine ⟨h1, ⟨k, hk, hke⟩, ?_⟩
    intro v hv hvle
    obtain ⟨k2, hk2, rfl⟩ := hv
    exact h3 k2 hk2 hvle
  · intro hm
    rw [hb]
    exact hmain.2 hm

/-- Witness for C3 at the hand ace, ace, nine: the side conditions hold and
the computed total 21 is an achievable valuation. -/
theorem hand_total_best_value_witness :
    minSum [⟨Rank.ace, Suit.spades⟩, ⟨Rank.ace, Suit.hearts⟩,
      ⟨Rank.nine, Suit.diamonds⟩] ≤ 21 ∧
    achievableTotal
      [⟨Rank.ace, Suit.spades⟩, ⟨Rank.ace, Suit.hearts⟩,
        ⟨Rank.nine, Suit.diamonds⟩]
      (Hand.total ⟨[⟨Rank.ace, Suit.spades⟩, ⟨Rank.ace, Suit.hearts⟩,
        ⟨Rank.nine, Suit.diamonds⟩]⟩) :=
  ⟨by decide,
    ((hand_total_best_value
      [⟨Rank.ace, Suit.spades⟩, ⟨Rank.ace, Suit.hearts⟩,
        ⟨Rank.nine, Suit.diamonds⟩]).1 (by decide)).2.1⟩

/-- C4: `is_blackjack` holds exactly of a two-card hand totalling 21; a 21
built from three or more cards is never a blackjack. -/
theorem is_blackjack_iff_two_card_21 (h : Hand) :
    (h.is_blackjack = true ↔ h.cards.length = 2 ∧ h.total = 21) ∧
    (h.cards.length ≠ 2 → h.is_blackjack = false) := by
  constructor
  · simp [Hand.is_blackjack]
  · intro hne
    simp [Hand.is_blackjack, hne]

/-- Witness for C4: ace, nine, ace totals 21 on three cards and is not a
blackjack. -/
theorem is_blackjack_iff_two_card_21_witness :
    Hand.total ⟨[⟨Rank.ace, Suit.spades⟩, ⟨Rank.nine, Suit.diamonds⟩,
      ⟨Rank.ace, Suit.hearts⟩]⟩ = 21 ∧
    Hand.is_blackjack ⟨[⟨Rank.ace, Suit.spades⟩, ⟨Rank.nine, Suit.diamonds⟩,
      ⟨Rank.ace, Suit.hearts⟩]⟩ = false :=
  ⟨by decide,
    (is_blackjack_iff_two_card_21 ⟨[⟨Rank.ace, Suit.spades⟩,
      ⟨Rank.nine, Suit.diamonds⟩, ⟨Rank.ace, Suit.hearts⟩]⟩).2 (by decide)⟩

/-- C1: `settle` follows the stated priority order, first match wins: both
blackjacks push; player blackjack pays `blackjack_pays`; dealer blackjack
loses the bet; player bust loses the bet (checked before dealer bust);
dealer bust pays the bet; otherwise the higher total wins, with equal
totals a push. -/
theorem settle_priority_order {σ : Type} (g : BlackjackGame σ) :
    (g.player.is_blackjack = true → g.dealer.is_blackjack = true →
      settle g = ("push", 0)) ∧
    (g.player.is_blackjack = true → g.dealer.is_blackjack = false →
      settle g = ("player_blackjack", g.rules.blackjack_pays)) ∧
    (g.player.is_blackjack = false → g.dealer.is_blackjack = true →
      settle g = ("dealer_win", -1)) ∧
    (g.player.is_blackjack = false → g.dealer.is_blackjack = false →
      g.player.is_bust = true → settle g = ("player_bust", -1)) ∧
    (g.player.is_blackjack = false → g.dealer.is_blackjack = false →
      g.player.is_bust = false → g.dealer.is_bust = true →
      settle g = ("dealer_bust", 1)) ∧
    (g.player.is_blackjack = false → g.dealer.is_blackjack = false →
      g.player.is_bust = false → g.dealer.is_bust = false →
      g.dealer.total < g.player.total → settle g = ("player_win", 1)) ∧
    (g.player.is_blackjack = false → g.dealer.is_blackjack = false →
      g.player.is_bust = false → g.dealer.is_bust = false →
      g.player.total < g.dealer.total → settle g = ("dealer_win", -1)) ∧
    (g.player.is_blackjack = false → g.dealer.is_blackjack = false →
      g.player.is_bust = false → g.dealer.is_bust = false →
      g.player.total = g.dealer.total → settle g = ("push", 0)) := by
  refine ⟨?_, ?_, ?_, ?_, ?_, ?_, ?_, ?_⟩
  · intro h1 h2
    simp [settle, h1, h2]
  · intro h1 h2
    simp [settle, h1, h2]
  · intro h1 h2
    simp [settle, h1, h2]
  · intro h1 h2 h3
    simp [settle, h1, h2, h3]
  · intro h1 h2 h3 h4
    simp [settle, h1, h2, h3, h4]
  · intro h1 h2 h3 h4 h5
    simp [settle, h1, h2, h3, h4, h5]
  · intro h1 h2 h3 h4 h5
    simp [settle, h1, h2, h3, h4, h5, Nat.lt_asymm h5]
  · intro h1 h2 h3 h4 h5
    simp [settle, h1, h2, h3, h4, h5]

/-- Witness for C1: player ace-king (blackjack) against dealer twenty pays
the blackjack multiplier 3:2. -/
theorem settle_priority_order_witness :
    settle (⟨0, {},
      ⟨[⟨Rank.ace, Suit.spades⟩, ⟨Rank.king, Suit.diamonds⟩]⟩,
      ⟨[⟨Rank.ten, Suit.hearts⟩, ⟨Rank.ten, Suit.spades⟩]⟩⟩ :
      BlackjackGame Nat) = ("player_blackjack", 3 / 2) :=
  (settle_priority_order _).2.1 (by decide) (by decide)

/-- C7: `settle` is a pure function of the player hand, dealer hand and
rules — two games agreeing on those three fields settle identically, whatever
their decks. -/
theorem settle_pure {σ τ : Type} (g1 : BlackjackGame σ) (g2 : BlackjackGame τ)
    (hp : g1.player = g2.player) (hd : g1.dealer = g2.dealer)
    (hr : g1.rules = g2.rules) : settle g1 = settle g2 := by
  simp only [settle, hp, hd, hr]

/-- Witness for C7: the same hands settle the same over two different
decks. -/
theorem settle_pure_witness :
    settle (⟨0, {},
      ⟨[⟨Rank.ten, Suit.hearts⟩, ⟨Rank.seven, Suit.clubs⟩]⟩,
      ⟨[⟨Rank.ten, Suit.spades⟩, ⟨Rank.nine, Suit.diamonds⟩]⟩⟩ :
      BlackjackGame Nat) =
    settle (⟨99, {},
      ⟨[⟨Rank.ten, Suit.hearts⟩, ⟨Rank.seven, Suit.clubs⟩]⟩,
      ⟨[⟨Rank.ten, Suit.spades⟩, ⟨Rank.nine, Suit.diamonds⟩]⟩⟩ :
      BlackjackGame Nat) :=
  settle_pure _ _ rfl rfl rfl

/-- C10: settling a game whose hands are both still empty returns a push
with zero payout. -/
theorem settle_empty_hands {σ : Type} (g : BlackjackGame σ)
    (hp : g.player.cards = []) (hd : g.dealer.cards = []) :
    settle g = ("push", 0) := by
  simp [settle, Hand.is_blackjack, Hand.is_bust, Hand.total, hp, hd,
    baseSum, acesCount, adjustAces]

/-- Witness for C10: a freshly constructed game settles as a push. -/
theorem settle_empty_hands_witness :
    settle ({ deck := 0 } : BlackjackGame Nat) = ("push", 0) :=
  settle_empty_hands _ rfl rfl

/-- C2: `dealer_play` draws exactly while the dealer total is under 17, or
equals 17 on a soft hand under H17; afterwards the dealer total is at
least 17; under S17 a dealer hand of ace and six receives no card, and
under H17 that hand receives exactly one card before the condition is
re-evaluated. -/
theorem dealer_play_policy {σ : Type} (draw : σ → Card × σ)
    (g : BlackjackGame σ) :
    (dealer_play draw g =
      if hitCond g.rules g.dealer then dealer_play draw (dealerStep draw g)
      else g) ∧
    17 ≤ (dealer_play draw g).dealer.total ∧
    (∀ cA c6 : Card, cA.rank = Rank.ace → c6.rank = Rank.six →
      g.dealer.cards = [cA, c6] → g.rules.dealer_hits_soft_17 = false →
      dealer_play draw g = g) ∧
    (∀ cA c6 : Card, cA.rank = Rank.ace → c6.rank = Rank.six →
      g.dealer.cards = [cA, c6] → g.rules.dealer_hits_soft_17 = true →
      dealer_play draw g = dealer_play draw (dealerStep draw g)) := by
  refine ⟨dealer_play_eq draw g, ?_, ?_, ?_⟩
  · exact hitCond_false_total (dealer_play_noHit draw g)
  · intro cA c6 hA h6 hcards hrule
    have htot : g.dealer.total = 17 := by
      simp [Hand.total, hcards, baseSum, acesCount, hA, h6, VALUES,
        adjustAces]
    have hc : hitCond g.rules g.dealer = false := by
      simp [hitCond, htot, hrule]
    rw [dealer_play_eq]
    simp [hc]
  · intro cA c6 hA h6 hcards hrule
    have htot : g.dealer.total = 17 := by
      simp [Hand.total, hcards, baseSum, acesCount, hA, h6, VALUES,
        adjustAces]
    have hsoft : g.dealer.is_soft = true := by
      simp [Hand.is_soft, hcards, baseSum, acesCount, hA, h6, VALUES,
        adjustAces]
    have hc : hitCond g.rules g.dealer = true := by
      simp [hitCond, htot, hsoft, hrule]
    rw [dealer_play_eq draw g, if_pos hc]

/-- Witness for C2: with S17 rules a dealer holding ace and six stands and
`dealer_play` changes nothing. -/
theorem dealer_play_policy_witness :
    dealer_play (fun n : Nat => (⟨Rank.five, Suit.spades⟩, n + 1))
      (⟨0, {}, {},
        ⟨[⟨Rank.ace, Suit.spades⟩, ⟨Rank.six, Suit.diamonds⟩]⟩⟩ :
        BlackjackGame Nat) =
    (⟨0, {}, {},
      ⟨[⟨Rank.ace, Suit.spades⟩, ⟨Rank.six, Suit.diamonds⟩]⟩⟩ :
      BlackjackGame Nat) :=
  (dealer_play_policy _ _).2.2.1 _ _ rfl rfl rfl rfl

/-- C8: calling `dealer_play` when the dealer already meets the standing
criteria — total at least 17 and not a soft 17 the rules hit — leaves the
whole game state, dealer hand and deck included, unchanged. -/
theorem dealer_play_noop_when_standing {σ : Type} (draw : σ → Card × σ)
    (g : BlackjackGame σ) (h1 : 17 ≤ g.dealer.total)
    (h2 : ¬(g.dealer.total = 17 ∧ g.dealer.is_soft = true ∧
      g.rules.dealer_hits_soft_17 = true)) :
    dealer_play draw g = g := by
  have hc : hitCond g.rules g.dealer = false := by
    have hne : ¬hitCond g.rules g.dealer = true := by
      intro hcc
      simp only [hitCond, Bool.or_eq_true, Bool.and_eq_true,
        decide_eq_true_eq] at hcc
      rcases hcc with hlt | ⟨⟨h17, hsoft⟩, hrule⟩
      · omega
      · exact h2 ⟨h17, hsoft, hrule⟩
    simpa using hne
  rw [dealer_play_eq]
  simp [hc]

/-- Witness for C8: a dealer standing on a hard 19 is untouched by another
`dealer_play` call. -/
theorem dealer_play_noop_when_standing_witness :
    dealer_play (fun n : Nat => (⟨Rank.five, Suit.spades⟩, n + 1))
      (⟨0, {}, {},
        ⟨[⟨Rank.ten, Suit.spades⟩, ⟨Rank.nine, Suit.diamonds⟩]⟩⟩ :
        BlackjackGame Nat) =
    (⟨0, {}, {},
      ⟨[⟨Rank.ten, Suit.spades⟩, ⟨Rank.nine, Suit.diamonds⟩]⟩⟩ :
      BlackjackGame Nat) :=
  dealer_play_noop_when_standing _ _ (by decide) (by decide)

/-- C6: `deal_initial` replaces both hands and deals player, dealer,
player, dealer from the owned deck, leaving each hand with exactly those
two cards in draw order, the deck advanced by four draws and the rules
untouched, whatever the prior hands held. -/
theorem deal_initial_alternates {σ : Type} (draw : σ → Card × σ)
    (g : BlackjackGame σ) :
    (deal_initial draw g).player.cards =
      [(draw g.deck).1, (draw (draw (draw g.deck).2).2).1] ∧
    (deal_initial draw g).dealer.cards =
      [(draw (draw g.deck).2).1,
        (draw (draw (draw (draw g.deck).2).2).2).1] ∧
    (deal_initial draw g).player.cards.length = 2 ∧
    (deal_initial draw g).dealer.cards.length = 2 ∧
    (deal_initial draw g).deck =
      (draw (draw (draw (draw g.deck).2).2).2).2 ∧
    (deal_initial draw g).rules = g.rules := by
  refine ⟨?_, ?_, ?_, ?_, ?_, ?_⟩ <;> simp [deal_initial, Hand.add]

/-- The card list built by `_build_and_shuffle` has `52 * n` cards. -/
theorem buildCards_length (n : Nat) : (buildCards n).length = n * 52 := by
  induction n with
  | zero => simp [buildCards]
  | succ n ih =>
    have h52 : oneDeck.length = 52 := by rfl
    simp [buildCards, h52, ih]
    omega

/-- After the replenishment checks the card sequence is non-empty, given a
length-preserving shuffle and at least one deck. -/
theorem replenish_pos (shuffle : List Card → List Card)
    (hs : ∀ l, (shuffle l).length = l.length) (d : Deck)
    (hd : 1 ≤ d.n_decks) : 0 < (d.replenish shuffle).cards.length := by
  have hbs : ∀ dk : Deck,
      (dk.buildAndShuffle shuffle).cards.length = dk.n_decks * 52 := by
    intro dk
    simp [Deck.buildAndShuffle, hs, buildCards_length]
  simp only [Deck.replenish]
  by_cases h0 : d.cards.length = 0
  · simp only [if_pos h0]
    split
    · rw [hbs]
      simp only [Deck.buildAndShuffle]
      omega
    · rw [hbs]
      omega
  · simp only [if_neg h0]
    split
    · rw [hbs]
      omega
    · omega

/-- C5: `Deck.draw` is total — for any deck with at least one configured
deck (an invariant the clamping constructor always establishes) and a
length-preserving shuffle, the replenishment checks guarantee the final
pop acts on a non-empty sequence and a card is returned. -/
theorem draw_always_succeeds (shuffle : List Card → List Card)
    (hs : ∀ l, (shuffle l).length = l.length) :
    (∀ n : Int, 1 ≤ (Deck.init shuffle n).n_decks) ∧
    ∀ d : Deck, 1 ≤ d.n_decks → (Deck.draw shuffle d).isSome = true := by
  constructor
  · intro n
    have hmax : 1 ≤ max 1 n := le_max_left 1 n
    simp only [Deck.init, Deck.buildAndShuffle]
    generalize max 1 n = m at hmax ⊢
    omega
  · intro d hd
    have hpos := replenish_pos shuffle hs d hd
    simp only [Deck.draw]
    rcases hE : (d.replenish shuffle).cards.getLast? with _ | c
    · rw [List.getLast?_eq_none_iff] at hE
      rw [hE] at hpos
      simp at hpos
    · simp [hE]

/-- Witness for C5: drawing from an exhausted single deck still yields a
card. -/
theorem draw_always_succeeds_witness :
    (Deck.draw id ⟨1, []⟩).isSome = true :=
  (draw_always_succeeds id (fun _ => rfl)).2 ⟨1, []⟩ (by decide)

/-- C9: constructing a deck with a non-positive deck count clamps it to 1:
the construction coincides with the one-deck construction and, for a
length-preserving shuffle, holds 52 cards after the initial build. -/
theorem init_clamps_deck_count (shuffle : List Card → List Card) :
    (∀ n : Int, n ≤ 0 → Deck.init shuffle n = Deck.init shuffle 1) ∧
    ((∀ l, (shuffle l).length = l.length) → ∀ n : Int, n ≤ 0 →
      (Deck.init shuffle n).cards.length = 52) := by
  have hone : ∀ n : Int, n ≤ 0 → (max 1 n).toNat = 1 := by
    intro n hn
    have h1 : max 1 n = 1 := max_eq_left (by omega)
    rw [h1]
    rfl
  constructor
  · intro n hn
    simp [Deck.init, Deck.buildAndShuffle, hone n hn]
  · intro hs n hn
    simp [Deck.init, Deck.buildAndShuffle, hone n hn, hs, buildCards_length]

/-- Witness for C9: a deck requested with -3 decks equals the one-deck
construction and holds 52 cards. -/
theorem init_clamps_deck_count_witness :
    Deck.init id (-3) = Deck.init id 1 ∧
      (Deck.init id (-3)).cards.length = 52 :=
  ⟨(init_clamps_deck_count id).1 (-3) (by decide),
    (init_clamps_deck_count id).2 (fun _ => rfl) (-3) (by decide)⟩

end Blackjack
